import Mathlib

/-!
Shallow embedding of the keyframe-timeline core of the
blender-animation-presets add-on: the Timeline Compiler
(`ANIM_OT_add_preset` in animation_presets.py) and the Loop/Playback
Expander (`CURVE_OT_ApplyCurveAnimation` in curve_animation.py).
Python floats are modelled as rationals (all constants appearing in the
source tables are exactly representable and the arithmetic in the claims
is exact in binary doubles as well); Python `int()` is truncation toward
zero; fallible paths are `Except`.
-/

namespace AnimPresets

/-- Python `int()` applied to a float: truncation toward zero. -/
def pyInt (q : ℚ) : ℤ := if 0 ≤ q then ⌊q⌋ else ⌈q⌉

/-- Timing parameters of the Timeline Compiler (spec §3 TimingParams; in the
source `start_frame = context.scene.frame_current`, `duration` from the scene,
`speed_factor`/`animation_speed` a float property, `reverse` per spec §4.1). -/
structure TimingParams where
  start_frame : ℤ
  duration_frames : ℤ
  speed_factor : ℚ
  reverse : Bool

/-- Effective (speed-scaled) duration:
`actual_duration = int(base_duration / speed)` (animation_presets.py line 167)
and `adjusted_duration = int(duration / settings.speed_factor)`
(curve_animation.py line 327). -/
def effectiveDuration (t : TimingParams) : ℤ :=
  pyInt ((t.duration_frames : ℚ) / t.speed_factor)

/-- Absolute frame of one sample:
`frame = start_frame + int(duration * time_pct)` (animation_presets.py,
e.g. lines 212-214, 297). The `reverse` branch replaces the fraction by
`1 - time_pct` per spec §4.1 (position-only reverse). -/
def sampleFrame (start duration : ℤ) (reverse : Bool) (pct : ℚ) : ℤ :=
  start + pyInt ((duration : ℚ) * (if reverse then 1 - pct else pct))

/-- Timeline Compiler: maps each (time_fraction, value) sample of a preset
table to an absolute-frame keyframe, exactly as the per-sample loop of
`apply_popup_scale` / `apply_bouncy_reveal` (animation_presets.py lines
206-220, 295-300) does; values pass through unchanged. -/
def compile {α : Type} (descriptor : List (ℚ × α)) (t : TimingParams) :
    List (ℤ × α) :=
  descriptor.map fun s =>
    (sampleFrame t.start_frame (effectiveDuration t) t.reverse s.1, s.2)

/-- Discriminates `Except.ok` results. -/
def exceptOk {ε α : Type} : Except ε α → Bool
  | Except.ok _ => true
  | Except.error _ => false

/-- The input validation actually performed around the compiler:
`CURVE_OT_ApplyCurveAnimation.execute` lines 266-268 rejects only
`duration < 1` (report "Invalid animation duration.", return CANCELLED);
no descriptor-boundary check, no speed check and no check of the scaled
effective duration exists anywhere in the source. -/
def executeCompile {α : Type} (descriptor : List (ℚ × α)) (t : TimingParams) :
    Except String (List (ℤ × α)) :=
  if t.duration_frames < 1 then Except.error "Invalid animation duration."
  else Except.ok (compile descriptor t)

/-- Stagger configuration (spec §3 StaggerPlan). The source hard-codes
`num_copies = 3` and `delay_pct = 0.2 * i` (animation_presets.py lines
690-698); the plan generalises those two constants exactly as spec §4.1
does. -/
structure StaggerPlan where
  num_copies : ℕ
  delay_fraction_per_copy : ℚ

/-- One staggered copy: `adjusted_time = time_pct + delay_pct`, keyframe kept
only `if adjusted_time <= 1.0`, at `frame = start_frame + int(duration *
adjusted_time)` (animation_presets.py lines 701-705). -/
def staggerCopy {α : Type} (descriptor : List (ℚ × α)) (t : TimingParams)
    (delay_pct : ℚ) : List (ℤ × α) :=
  descriptor.filterMap fun s =>
    if s.1 + delay_pct ≤ 1 then
      some (sampleFrame t.start_frame (effectiveDuration t) t.reverse
              (s.1 + delay_pct), s.2)
    else none

/-- Staggered compiler: copy `i` of `num_copies` gets delay
`delay_fraction_per_copy * i` (source: `delay_pct = 0.2 * i` inside
`for i in range(num_copies)`, animation_presets.py lines 691-698). -/
def compileStaggered {α : Type} (descriptor : List (ℚ × α)) (t : TimingParams)
    (plan : StaggerPlan) : List (List (ℤ × α)) :=
  (List.range plan.num_copies).map fun (i : ℕ) =>
    staggerCopy descriptor t ((i : ℚ) * plan.delay_fraction_per_copy)

/-- Loop policy of the Loop/Playback Expander (curve_animation.py
`loop_type` enum REPEAT / PING_PONG / OFFSET, with `loop_offset` for
OFFSET). -/
inductive LoopPolicy where
  | Repeat : LoopPolicy
  | PingPong : LoopPolicy
  | Offset : ℚ → LoopPolicy

/-- Clamp to [0,1]: `factor = min(max(factor, 0.0), 1.0)`
(curve_animation.py line 506). -/
def clamp01 (x : ℚ) : ℚ := min (max x 0) 1

/-- Total preview duration: `total_duration = duration`, then
`*= 2` for PING_PONG and `*= 4` for OFFSET when `loop_animation` is set
(curve_animation.py lines 270-276). -/
def totalDuration (duration : ℤ) (loop_animation : Bool)
    (policy : LoopPolicy) : ℤ :=
  if loop_animation then
    match policy with
    | LoopPolicy.PingPong => duration * 2
    | LoopPolicy.Offset _ => duration * 4
    | LoopPolicy.Repeat => duration
  else duration

/-- Loop/Playback Expander, frame offsets relative to `start_frame`:
`apply_animation` (curve_animation.py lines 463-478) inserts the initial
point (0, start_factor) and then dispatches to
`_create_repeat_animation` (end point only; the CYCLES modifier it adds is
a tag for the host, not a point), `_create_ping_pong_animation`
(mid = duration with end_factor, end = duration*2 with start_factor,
lines 490-498) or `_create_offset_animation` (for i in 1..3 a point at
duration*i with factor (start_factor + i*loop_offset) when
`reverse_direction` else (end_factor + i*loop_offset), clamped, lines
500-509). -/
def expand (start_factor end_factor : ℚ) (duration : ℤ) (policy : LoopPolicy)
    (reverse : Bool) : List (ℤ × ℚ) :=
  (0, start_factor) ::
    match policy with
    | LoopPolicy.Repeat => [(duration, end_factor)]
    | LoopPolicy.PingPong =>
        [(duration, end_factor), (duration * 2, start_factor)]
    | LoopPolicy.Offset o =>
        (List.range' 1 3).map fun (i : ℕ) =>
          (duration * (i : ℤ),
           clamp01 ((if reverse then start_factor else end_factor) + (i : ℚ) * o))

/- ## Helper lemmas -/

theorem pyInt_nonneg {q : ℚ} (h : 0 ≤ q) : 0 ≤ pyInt q := by
  unfold pyInt
  rw [if_pos h]
  exact Int.floor_nonneg.mpr h

theorem pyInt_mono {a b : ℚ} (h : a ≤ b) : pyInt a ≤ pyInt b := by
  unfold pyInt
  split_ifs with ha hb hb
  · exact Int.floor_le_floor h
  · exact absurd (ha.trans h) hb
  · calc ⌈a⌉ ≤ 0 := Int.ceil_le.mpr (by exact_mod_cast le_of_not_le ha)
      _ ≤ ⌊b⌋ := Int.floor_nonneg.mpr hb
  · exact Int.ceil_le_ceil h

theorem pyInt_of_nonneg {q : ℚ} (h : 0 ≤ q) : pyInt q = ⌊q⌋ := by
  unfold pyInt
  rw [if_pos h]

theorem clamp01_mem (x : ℚ) : 0 ≤ clamp01 x ∧ clamp01 x ≤ 1 := by
  unfold clamp01
  constructor
  · exact le_min (le_max_right x 0) zero_le_one
  · exact min_le_right _ _

theorem filterMap_ite_eq_filter_map {α β : Type} (p : α → Prop)
    [DecidablePred p] (g : α → β) (l : List α) :
    (l.filterMap fun a => if p a then some (g a) else none) =
      (l.filter fun a => decide (p a)).map g := by
  induction l with
  | nil => rfl
  | cons a l ih =>
      by_cases h : p a <;>
        simp [List.filterMap_cons, List.filter_cons, h, ih]

/- ## Claim C1 -/

/-- Claim C1, counterexample: at duration_frames = 30 and speed_factor = 4,
the effective duration computed by the code
(`actual_duration = int(base_duration / speed)`) is 7, not
round(30 / 4) = 8: the code truncates rather than rounding to nearest. -/
theorem effectiveDuration_ne_round_at_30_4 :
    effectiveDuration ⟨1, 30, 4, false⟩ ≠ round ((30 : ℚ) / 4) := by
  have h1 : effectiveDuration ⟨1, 30, 4, false⟩ = 7 := by
    norm_num [effectiveDuration, pyInt]
  have h2 : round ((30 : ℚ) / 4) = 8 := by
    rw [round_eq]; norm_num
  rw [h1, h2]
  decide

/-- Claim C1 (amended): for duration_frames > 0 and speed_factor > 0 the
effective duration equals floor(duration_frames / speed_factor) (Python
`int()` truncation, which is floor on positive input), and the effective
duration at speed_factor = 2 is the floor of half of the effective duration
at speed_factor = 1 — exact half only when the latter is even, as with the
source's base duration 30. -/
theorem effectiveDuration_truncates (f d : ℤ) (s : ℚ) (r : Bool)
    (hd : 0 < d) (hs : 0 < s) :
    effectiveDuration ⟨f, d, s, r⟩ = ⌊(d : ℚ) / s⌋ ∧
      effectiveDuration ⟨f, d, 2, r⟩ =
        ⌊(effectiveDuration ⟨f, d, 1, r⟩ : ℚ) / 2⌋ := by
  have hd0 : (0 : ℚ) ≤ (d : ℚ) := by exact_mod_cast hd.le
  constructor
  · exact pyInt_of_nonneg (div_nonneg hd0 hs.le)
  · have h1 : effectiveDuration ⟨f, d, 1, r⟩ = d := by
      have hfl : pyInt ((d : ℤ) : ℚ) = d := by
        rw [pyInt_of_nonneg hd0]
        exact Int.floor_intCast d
      simpa [effectiveDuration] using hfl
    rw [h1]
    exact pyInt_of_nonneg (div_nonneg hd0 (by norm_num))

/-- Witness for C1 amended, at the source's base duration 30 and speed 4:
effective duration 7 = floor(30/4), and speed 2 yields 15 = floor(30/2). -/
theorem effectiveDuration_truncates_witness :
    (0 : ℤ) < 30 ∧ (0 : ℚ) < 4 ∧
      effectiveDuration ⟨1, 30, 4, false⟩ = ⌊(30 : ℚ) / 4⌋ ∧
      effectiveDuration ⟨1, 30, 2, false⟩ =
        ⌊(effectiveDuration ⟨1, 30, 1, false⟩ : ℚ) / 2⌋ :=
  ⟨by decide, by norm_num,
   (effectiveDuration_truncates 1 30 4 false (by decide) (by norm_num)).1,
   (effectiveDuration_truncates 1 30 4 false (by decide) (by norm_num)).2⟩

/- ## Claim C2 -/

/-- Claim C2: on the popup-scale table
[(0.0,(0,0,0)), (0.4,(1.2,1.2,1.2)), (0.7,(0.9,0.9,0.9)), (1.0,(1,1,1))]
with start_frame 1, duration_frames 30, speed_factor 1, the compiler emits
exactly four keyframes at absolute frames 1, 13, 22, 31 carrying the four
values in descriptor order. -/
theorem compile_scenarioA :
    compile [((0 : ℚ), ((0 : ℚ), (0 : ℚ), (0 : ℚ))),
             (0.4, (1.2, 1.2, 1.2)),
             (0.7, (0.9, 0.9, 0.9)),
             (1, (1, 1, 1))]
        ⟨1, 30, 1, false⟩ =
      [(1, (0, 0, 0)), (13, (1.2, 1.2, 1.2)),
       (22, (0.9, 0.9, 0.9)), (31, (1, 1, 1))] := by
  norm_num [compile, sampleFrame, effectiveDuration, pyInt]

/- ## Claim C3 -/

/-- Claim C3: with looping enabled, the total preview duration is the base
duration for Repeat, twice it for PingPong and four times it for Offset. -/
theorem totalDuration_loop_totals (d : ℤ) (hd : 0 < d) :
    totalDuration d true LoopPolicy.Repeat = d ∧
      totalDuration d true LoopPolicy.PingPong = 2 * d ∧
      ∀ o : ℚ, totalDuration d true (LoopPolicy.Offset o) = 4 * d := by
  refine ⟨rfl, ?_, fun o => ?_⟩ <;> simp [totalDuration, mul_comm]

/-- Witness for C3 at the source's base duration 30: totals 30, 60, 120. -/
theorem totalDuration_loop_totals_witness :
    (0 : ℤ) < 30 ∧ totalDuration 30 true LoopPolicy.Repeat = 30 ∧
      totalDuration 30 true LoopPolicy.PingPong = 60 ∧
      totalDuration 30 true (LoopPolicy.Offset 0.1) = 120 := by
  obtain ⟨h1, h2, h3⟩ := totalDuration_loop_totals 30 (by decide)
  exact ⟨by decide, h1, by rw [h2]; norm_num, by rw [h3 0.1]; norm_num⟩

/- ## Claim C4 -/

/-- Claim C4: for every start factor, end factor and positive duration, the
PingPong expansion emits exactly the three points (0, start),
(duration, end), (2·duration, start) in that order. -/
theorem expand_pingPong_points (s e : ℚ) (d : ℤ) (r : Bool) (hd : 0 < d) :
    expand s e d LoopPolicy.PingPong r = [(0, s), (d, e), (2 * d, s)] := by
  simp [expand, mul_comm]

/-- Witness for C4: expand(0.0, 1.0, 30, PingPong) = [(0,0),(30,1),(60,0)]. -/
theorem expand_pingPong_points_witness :
    (0 : ℤ) < 30 ∧
      expand 0 1 30 LoopPolicy.PingPong false = [(0, 0), (30, 1), (60, 0)] :=
  ⟨by decide, by rw [expand_pingPong_points 0 1 30 false (by decide)]; norm_num⟩

/- ## Claim C5 -/

/-- Claim C5, counterexample: with reverse set (so start_factor = 1,
end_factor = 0, as `apply_animation` lines 454-455 assign them) and
offset_per_cycle 0, the Offset expansion emits factor 1 at every cycle —
derived from the start factor by line 505 — whereas the claim's formula
clamp01(end + i·offset) would give 0 at every cycle. -/
theorem expand_offset_reverse_counterexample :
    expand 1 0 30 (LoopPolicy.Offset 0) true ≠
      [(0, 1), (30, clamp01 (0 + 1 * 0)), (60, clamp01 (0 + 2 * 0)),
       (90, clamp01 (0 + 3 * 0))] := by
  norm_num [expand, clamp01, List.range']

/-- Claim C5 (amended): the Offset expansion emits the initial point
(0, start) and then, for each cycle i in 1..3, the point
(i·duration, clamp01(f + i·offset_per_cycle)) where f is the START factor
when the reverse flag is set and the end factor otherwise. -/
theorem expand_offset_points (s e : ℚ) (d : ℤ) (o : ℚ) (r : Bool)
    (hd : 0 < d) :
    expand s e d (LoopPolicy.Offset o) r =
      [(0, s),
       (d, clamp01 ((if r then s else e) + o)),
       (2 * d, clamp01 ((if r then s else e) + 2 * o)),
       (3 * d, clamp01 ((if r then s else e) + 3 * o))] := by
  simp [expand, List.range']
  norm_num [mul_comm]

/-- Witness for C5 amended at s = 0, e = 1, d = 30, o = 0.5, reverse off. -/
theorem expand_offset_points_witness :
    (0 : ℤ) < 30 ∧
      expand 0 1 30 (LoopPolicy.Offset 0.5) false =
        [(0, 0), (30, clamp01 ((if false then (0 : ℚ) else 1) + 0.5)),
         (60, clamp01 ((if false then (0 : ℚ) else 1) + 2 * 0.5)),
         (90, clamp01 ((if false then (0 : ℚ) else 1) + 3 * 0.5))] :=
  ⟨by decide, by
    rw [expand_offset_points 0 1 30 0.5 false (by decide)]; norm_num⟩

/- ## Claim C6 -/

/-- Claim C6: copy i of the staggered compiler shifts every sample's
time fraction by i · delay_fraction_per_copy and keeps exactly the samples
whose shifted fraction is ≤ 1 (so a shift to exactly 1.0 is kept, and a
shift above 1.0 is dropped), compiling each kept sample at the frame of its
shifted fraction. -/
theorem compileStaggered_drop_rule {α : Type} (descriptor : List (ℚ × α))
    (t : TimingParams) (plan : StaggerPlan) (i : ℕ)
    (hi : i < plan.num_copies) :
    (compileStaggered descriptor t plan)[i]? =
      some ((descriptor.filter fun s =>
              decide (s.1 + (i : ℚ) * plan.delay_fraction_per_copy ≤ 1)).map
        fun s => (sampleFrame t.start_frame (effectiveDuration t) t.reverse
                    (s.1 + (i : ℚ) * plan.delay_fraction_per_copy), s.2)) := by
  have key := filterMap_ite_eq_filter_map
      (fun s : ℚ × α => s.1 + (i : ℚ) * plan.delay_fraction_per_copy ≤ 1)
      (fun s : ℚ × α =>
        (sampleFrame t.start_frame (effectiveDuration t) t.reverse
           (s.1 + (i : ℚ) * plan.delay_fraction_per_copy), s.2)) descriptor
  have hr : (List.range plan.num_copies)[i]? = some i := by
    simp [List.getElem?_range, hi]
  unfold compileStaggered
  rw [List.getElem?_map, hr, Option.map_some']
  rw [staggerCopy, key]

/-- Witness for C6: with num_copies = 3, delay 0.2 and the stagger table's
final sample at fraction 1.0 replaced by one at 0.9, the 0.9 sample is kept
in copy 0 (frame start + int(30·0.9)) but dropped in copy 1
(0.9 + 0.2 = 1.1 > 1). -/
theorem compileStaggered_drop_rule_witness :
    (1 : ℕ) < 3 ∧
      (compileStaggered [((0 : ℚ), (0 : ℚ)), (0.9, 1)] ⟨1, 30, 1, false⟩
          ⟨3, 0.2⟩)[1]? =
        some [(sampleFrame 1 (effectiveDuration ⟨1, 30, 1, false⟩) false
                 (0 + (1 : ℚ) * 0.2), 0)] ∧
      (compileStaggered [((0 : ℚ), (0 : ℚ)), (0.9, 1)] ⟨1, 30, 1, false⟩
          ⟨3, 0.2⟩)[0]? =
        some [(sampleFrame 1 (effectiveDuration ⟨1, 30, 1, false⟩) false
                 (0 + (0 : ℚ) * 0.2), 0),
              (sampleFrame 1 (effectiveDuration ⟨1, 30, 1, false⟩) false
                 (0.9 + (0 : ℚ) * 0.2), 1)] :=
  ⟨by decide,
   by rw [compileStaggered_drop_rule _ _ _ 1 (by decide)]; norm_num,
   by rw [compileStaggered_drop_rule _ _ _ 0 (by decide)]; norm_num⟩

/- ## Claim C7 -/

/-- Claim C7, counterexample: with duration_frames = 1 and speed_factor = 2
the effective duration is int(1/2) = 0 < 1, yet the code raises no error
(the only check is duration < 1); likewise a descriptor whose first sample
sits at 0.5 (boundary invariant violated) compiles without any error. -/
theorem executeCompile_no_error_counterexample :
    exceptOk (executeCompile [((0 : ℚ), (0 : ℚ)), (1, 1)] ⟨1, 1, 2, false⟩)
        = true ∧
      effectiveDuration ⟨1, 1, 2, false⟩ = 0 ∧
      exceptOk (executeCompile [((0.5 : ℚ), (0 : ℚ))] ⟨1, 30, 1, false⟩)
        = true := by
  refine ⟨?_, ?_, ?_⟩
  · rfl
  · norm_num [effectiveDuration, pyInt]
  · rfl

/-- Claim C7 (amended): the only input validation around the compiler is the
duration check of `CURVE_OT_ApplyCurveAnimation.execute`: the call succeeds
exactly when duration_frames ≥ 1, independent of the descriptor's boundary
fractions, of the speed factor, and of the rounded effective duration; no
ConfigError or InvalidTimingError class exists in the code. -/
theorem executeCompile_ok_iff {α : Type} (descriptor : List (ℚ × α))
    (t : TimingParams) :
    exceptOk (executeCompile descriptor t) = true ↔ 1 ≤ t.duration_frames := by
  unfold executeCompile
  split_ifs with h
  · simp [exceptOk]; omega
  · simp [exceptOk]; omega

/- ## Claim C8 -/

/-- Claim C8: for start and end factors within [0,1] and positive duration,
every factor the expander emits lies in [0,1] under every loop policy (the
Offset cycle points are clamped, the others pass the in-range inputs
through); in particular expand(0, 1, 30, Offset 0.5) caps every cycle —
including cycles 2 and 3 — at exactly 1.0. -/
theorem expand_factors_clamped (s e : ℚ) (d : ℤ) (policy : LoopPolicy)
    (r : Bool) (hs0 : 0 ≤ s) (hs1 : s ≤ 1) (he0 : 0 ≤ e) (he1 : e ≤ 1)
    (hd : 0 < d) :
    (∀ p ∈ expand s e d policy r, 0 ≤ p.2 ∧ p.2 ≤ 1) ∧
      expand 0 1 30 (LoopPolicy.Offset 0.5) false =
        [(0, 0), (30, 1), (60, 1), (90, 1)] := by
  constructor
  · intro p hp
    cases policy with
    | Repeat =>
        simp only [expand, List.mem_cons, List.not_mem_nil, or_false] at hp
        rcases hp with h | h <;> subst h
        · exact ⟨hs0, hs1⟩
        · exact ⟨he0, he1⟩
    | PingPong =>
        simp only [expand, List.mem_cons, List.not_mem_nil, or_false] at hp
        rcases hp with h | h | h <;> subst h
        · exact ⟨hs0, hs1⟩
        · exact ⟨he0, he1⟩
        · exact ⟨hs0, hs1⟩
    | Offset o =>
        simp only [expand, List.mem_cons, List.mem_map] at hp
        rcases hp with h | ⟨i, _, h⟩
        · subst h; exact ⟨hs0, hs1⟩
        · rw [← h]
          exact clamp01_mem _
  · rw [expand_offset_points 0 1 30 0.5 false (by decide)]
    norm_num [clamp01]

/-- Witness for C8 at s = 0, e = 1, d = 30, policy Offset 0.5: all eleven
hypotheses hold and every emitted factor is within [0,1]. -/
theorem expand_factors_clamped_witness :
    ((0 : ℚ) ≤ 0 ∧ (0 : ℚ) ≤ 1 ∧ (0 : ℚ) ≤ 1 ∧ (1 : ℚ) ≤ 1 ∧ (0 : ℤ) < 30) ∧
      ∀ p ∈ expand 0 1 30 (LoopPolicy.Offset 0.5) false,
        0 ≤ p.2 ∧ p.2 ≤ 1 :=
  ⟨⟨le_refl 0, by norm_num, by norm_num, le_refl 1, by decide⟩,
   (expand_factors_clamped 0 1 30 (LoopPolicy.Offset 0.5) false
      (le_refl 0) (by norm_num) (by norm_num) (le_refl 1) (by decide)).1⟩

/- ## Claim C9 -/

/-- Claim C9: for a descriptor with non-decreasing time fractions and a
timing with reverse off, positive duration and positive speed, the frames
the compiler emits are non-decreasing in emission order. -/
theorem compile_frames_monotone {α : Type} (descriptor : List (ℚ × α))
    (t : TimingParams) (hrev : t.reverse = false)
    (hdur : 0 < t.duration_frames) (hsp : 0 < t.speed_factor)
    (hmono : descriptor.Pairwise fun a b => a.1 ≤ b.1) :
    (compile descriptor t).Pairwise fun a b => a.1 ≤ b.1 := by
  have heff : (0 : ℚ) ≤ (effectiveDuration t : ℚ) := by
    have : (0 : ℤ) ≤ effectiveDuration t :=
      pyInt_nonneg (div_nonneg (by exact_mod_cast hdur.le) hsp.le)
    exact_mod_cast this
  unfold compile
  refine List.pairwise_map.mpr (hmono.imp ?_)
  intro a b hab
  show sampleFrame t.start_frame (effectiveDuration t) t.reverse a.1 ≤
    sampleFrame t.start_frame (effectiveDuration t) t.reverse b.1
  unfold sampleFrame
  rw [hrev]
  simp only [Bool.false_eq_true, if_false]
  have hmul : (effectiveDuration t : ℚ) * a.1 ≤ (effectiveDuration t : ℚ) * b.1 :=
    mul_le_mul_of_nonneg_left hab heff
  have := pyInt_mono hmul
  omega

/-- Witness for C9 on the bouncy-reveal fractions 0, 0.3, 0.5, 0.7, 0.85, 1
at start_frame 1, duration 30, speed 1, reverse off. -/
theorem compile_frames_monotone_witness :
    ((0 : ℤ) < 30 ∧ (0 : ℚ) < 1 ∧
      List.Pairwise (fun (a b : ℚ × ℚ) => a.1 ≤ b.1)
        [((0 : ℚ), (0 : ℚ)), (0.3, 1.3), (0.5, 0.7), (0.7, 1.1),
         (0.85, 0.9), (1, 1)]) ∧
      List.Pairwise (fun (a b : ℤ × ℚ) => a.1 ≤ b.1)
        (compile [((0 : ℚ), (0 : ℚ)), (0.3, 1.3), (0.5, 0.7), (0.7, 1.1),
                  (0.85, 0.9), (1, 1)] ⟨1, 30, 1, false⟩) :=
  ⟨⟨by decide, by norm_num, by norm_num⟩,
   compile_frames_monotone _ ⟨1, 30, 1, false⟩ rfl (by decide) (by norm_num)
     (by norm_num)⟩

/- ## Claim C10 -/

/-- Claim C10: whenever the plan has at least one copy and the descriptor's
time fractions all lie at or below 1 (as the PresetDescriptor data model
requires), copy 0 of the staggered compiler is exactly the plain compiler's
output: its shift is 0, nothing is dropped, and frames and values agree. -/
theorem compileStaggered_copy0_eq_compile {α : Type}
    (descriptor : List (ℚ × α)) (t : TimingParams) (plan : StaggerPlan)
    (hn : 1 ≤ plan.num_copies) (hfr : ∀ s ∈ descriptor, s.1 ≤ 1) :
    (compileStaggered descriptor t plan)[0]? = some (compile descriptor t) := by
  have h0 : 0 < plan.num_copies := Nat.lt_of_lt_of_le Nat.zero_lt_one hn
  have hr : (List.range plan.num_copies)[0]? = some 0 := by
    simp [List.getElem?_range, h0]
  unfold compileStaggered
  rw [List.getElem?_map, hr, Option.map_some']
  congr 1
  unfold staggerCopy compile
  induction descriptor with
  | nil => rfl
  | cons a l ih =>
      have ha : a.1 + (0 : ℕ) * plan.delay_fraction_per_copy ≤ 1 := by
        simpa using hfr a (List.mem_cons_self a l)
      rw [List.filterMap_cons, List.map_cons, if_pos ha,
        ih fun s hs => hfr s (List.mem_cons_of_mem a hs)]
      norm_num

/-- Witness for C10: the popup-scale descriptor with the source's stagger
plan (3 copies, delay 0.2) has copy 0 equal to the plain compilation. -/
theorem compileStaggered_copy0_eq_compile_witness :
    ((1 : ℕ) ≤ 3 ∧
      ∀ s ∈ [((0 : ℚ), (0 : ℚ)), (0.4, 1.2), (0.7, 0.9), (1, 1)],
        s.1 ≤ 1) ∧
      (compileStaggered [((0 : ℚ), (0 : ℚ)), (0.4, 1.2), (0.7, 0.9), (1, 1)]
          ⟨1, 30, 1, false⟩ ⟨3, 0.2⟩)[0]? =
        some (compile [((0 : ℚ), (0 : ℚ)), (0.4, 1.2), (0.7, 0.9), (1, 1)]
          ⟨1, 30, 1, false⟩) :=
  ⟨⟨by decide, by norm_num⟩,
   compileStaggered_copy0_eq_compile _ ⟨1, 30, 1, false⟩ ⟨3, 0.2⟩
     (by decide) (by norm_num)⟩

end AnimPresets
